import Mathlib

/-!
# pagemap: virtual page to physical frame report

A shallow embedding of `src/pagemap/pagemap.c` (the `main` loop, lines 136-224,
and the `is_bit_set` macro, line 83) and theorems about it.

Modelling conventions.

* `uint32_t` variables are natural numbers reduced `% 2^32` at every
  operation that can leave the range; `uint64_t` values are reduced `% 2^64`.
* The maps stream `ma` is the list of strings that successive `fgets` calls
  return; a string is a `List Char`.
* `sscanf`, `lseek64`, `read` and `getpagesize` belong to the C library and the
  kernel.  `sscanf` is modelled for the one format the program uses, on an
  LP64 Linux (`unsigned long` has 64 bits).  Each `%lX` stores eight bytes
  through a pointer to a four-byte `uint32_t`, which C leaves undefined; the
  model takes the stack layout of the optimised builds, where the four bytes
  that overflow miss the other variable, so each variable keeps the low 32
  bits of its own field.  (In a layout with `vm_addr_end` four bytes below
  `vm_addr_start` the second store would replace `vm_addr_start` by the high
  half of the end.)  Theorems that say what the program cannot do are stated
  for every value of the variables, and hold in either layout.  The pagemap
  descriptor `pm` is a `Device`: a state type with the two calls the program
  makes on it.
* What the program does is recorded as a list of `Event`s, in program order:
  lines echoed and records printed on `stdout`, and the calls on `pm`.
  `exit(c)` ends the run with status `c`; falling off `main` is status `0`.
-/

namespace Pagemap

/-! ## Constants and the bit macro -/

/-- The `const uint32_t PAGEMAP_ENTRY_SIZE = 8` of line 136. -/
def PAGEMAP_ENTRY_SIZE : Nat := 8

/-- Two to the 32, the modulus of `uint32_t` arithmetic. -/
def U32 : Nat := 2 ^ 32

/-- Two to the 64, the modulus of `uint64_t` arithmetic. -/
def U64 : Nat := 2 ^ 64

/-- The macro `is_bit_set(val, bit)`, `((val) & ((uint64_t)1 << (bit)))`. -/
def is_bit_set (val bit : Nat) : Nat := val &&& ((1 <<< bit) % U64)

/-! ## Mapping records -/

/-- The arguments of the `printf` of lines 205-217, the four constant `'0'`
columns left out: the page index, the five tested bits (`true` is printed as
`'1'`, `false` as `'0'`) and the masked value. -/
structure MappingRecord where
  vpage : Nat
  present : Bool
  swapped : Bool
  fileOrSharedAnon : Bool
  exclusive : Bool
  softDirty : Bool
  raw : Nat
  deriving DecidableEq, Repr

/-- The record printed for entry `pa` with first argument `vpage`
(lines 205-217). -/
def decode (vpage pa : Nat) : MappingRecord :=
  { vpage := vpage
    present := is_bit_set pa 63 != 0
    swapped := is_bit_set pa 62 != 0
    fileOrSharedAnon := is_bit_set pa 61 != 0
    exclusive := is_bit_set pa 56 != 0
    softDirty := is_bit_set pa 55 != 0
    raw := pa &&& 0x7FFFFFFF }

/-! ## The `sscanf` call of line 149 -/

/-- The C `isspace` in the "C" locale. -/
def isspace (c : Char) : Bool :=
  c == ' ' || c == '\t' || c == '\n' || c == '\r' || c == Char.ofNat 11 || c == Char.ofNat 12

/-- Value of a hexadecimal digit, if `c` is one. -/
def hexDigit (c : Char) : Option Nat :=
  if '0' ≤ c ∧ c ≤ '9' then some (c.toNat - '0'.toNat)
  else if 'a' ≤ c ∧ c ≤ 'f' then some (c.toNat - 'a'.toNat + 10)
  else if 'A' ≤ c ∧ c ≤ 'F' then some (c.toNat - 'A'.toNat + 10)
  else none

/-- Drop leading white space. -/
def skipSpace : List Char → List Char
  | [] => []
  | c :: cs => if isspace c then skipSpace cs else c :: cs

/-- Read hexadecimal digits: the accumulated value, whether a digit was
read, and the unread input. -/
def readDigits : Nat → Bool → List Char → Nat × Bool × List Char
  | acc, seen, [] => (acc, seen, [])
  | acc, seen, c :: cs =>
    match hexDigit c with
    | some d => readDigits (16 * acc + d) true cs
    | none => (acc, seen, c :: cs)

/-- Outcome of one conversion directive. -/
inductive Scan where
  | inputFailure
  | matchingFailure
  | ok (value : Nat) (rest : List Char)
  deriving DecidableEq, Repr

/-- The largest `unsigned long`. -/
def ULONG_MAX : Nat := U64 - 1

/-- What `strtoul` returns for magnitude `v` and sign `neg`. -/
def strtoulValue (neg : Bool) (v : Nat) : Nat :=
  if ULONG_MAX < v then ULONG_MAX
  else if neg then (U64 - v) % U64
  else v

/-- The digits of a number after its sign: an optional `0x` or `0X`, then
hexadecimal digits; without any digit the directive fails. -/
def scanMagnitude (neg : Bool) (s : List Char) : Scan :=
  let body : Bool × List Char :=
    match s with
    | c0 :: c1 :: cs => if c0 = '0' ∧ (c1 = 'x' ∨ c1 = 'X') then (true, cs) else (false, s)
    | _ => (false, s)
  match readDigits 0 body.1 body.2 with
  | (_, false, _) => Scan.matchingFailure
  | (v, true, rest) => Scan.ok (strtoulValue neg v) rest

/-- One `%lX` directive: white space is skipped, then an optional sign, then
the magnitude; input that ends before the number is an input failure. -/
def scanHex (s : List Char) : Scan :=
  match skipSpace s with
  | [] => Scan.inputFailure
  | c :: cs =>
    if c = '-' then scanMagnitude true cs
    else if c = '+' then scanMagnitude false cs
    else scanMagnitude false (c :: cs)

/-- The variables written by `sscanf(line, "%lX-%lX", &vm_addr_start,
&vm_addr_end)` and its return value stored in `valid_range` (all three are
`uint32_t`, initialised to `0`). -/
structure Parsed where
  valid_range : Nat
  vm_addr_start : Nat
  vm_addr_end : Nat
  deriving DecidableEq, Repr

/-- The call `sscanf(line, "%lX-%lX", &vm_addr_start, &vm_addr_end)`.
`EOF` is `-1`, which `valid_range` holds as `2^32 - 1`.  Each variable keeps
the low 32 bits of its own field: the layout in which the overflowing half of
a store does not land on the other variable. -/
def sscanfRange (line : List Char) : Parsed :=
  match scanHex line with
  | Scan.inputFailure => ⟨U32 - 1, 0, 0⟩
  | Scan.matchingFailure => ⟨0, 0, 0⟩
  | Scan.ok v1 rest1 =>
    match rest1 with
    | '-' :: rest2 =>
      match scanHex rest2 with
      | Scan.ok v2 _ => ⟨2, v1 % U32, v2 % U32⟩
      | _ => ⟨1, v1 % U32, 0⟩
    | _ => ⟨1, v1 % U32, 0⟩

/-! ## The pagemap descriptor -/

/-- Result of `read(pm, &pa, 8)`: the `ssize_t` returned and the bytes the
call stored at `&pa`, lowest address first. -/
structure ReadReply where
  bytes : Int
  data : List Nat
  deriving DecidableEq, Repr

/-- The descriptor `pm`: `lseek64(pm, offset, SEEK_SET)` gives the `off64_t`
it returns and the new state, `read(pm, &pa, 8)` a reply and the new state. -/
structure Device (σ : Type) where
  lseek64 : σ → Nat → Int × σ
  read : σ → ReadReply × σ

/-- The little-endian value of a list of bytes. -/
def leValue : List Nat → Nat
  | [] => 0
  | b :: bs => b % 256 + 256 * leValue bs

/-- The `uint64_t pa` after the read: it starts as `0` and the call overwrites
its first `bytes` bytes (none when the call failed). -/
def paAfterRead (r : ReadReply) : Nat :=
  leValue (r.data.take (min r.bytes.toNat 8))

/-- Conversion of an `off64_t` to the `int32_t retval` of line 167. -/
def toInt32 (r : Int) : Int :=
  if r % 2 ^ 32 < 2 ^ 31 then r % 2 ^ 32 else r % 2 ^ 32 - 2 ^ 32

/-! ## The program -/

/-- What the run does, in program order. -/
inductive Event where
  | echo (line : List Char)
  | seek (offset : Nat)
  | read
  | record (r : MappingRecord)
  deriving DecidableEq, Repr

/-- How a piece of the program ends: it runs on with the descriptor state and
the static `page_counter`, or it calls `exit`. -/
inductive Flow (σ : Type) where
  | next (pm : σ) (page_counter : Nat)
  | exit (status : Nat)
  deriving DecidableEq, Repr

/-- The loop `while (num_of_pages > 0)` of lines 190-222, by recursion on
`num_of_pages`. -/
def readLoop {σ : Type} (dev : Device σ) (vm_addr_start page_size : Nat) :
    Nat → σ → Nat → List Event × Flow σ
  | 0, pm, page_counter => ([], Flow.next pm page_counter)
  | num_of_pages + 1, pm, page_counter =>
    let reply := dev.read pm
    if reply.1.bytes < 0 then
      ([Event.read], Flow.exit 204)
    else
      let pa := paAfterRead reply.1
      let r := decode ((vm_addr_start / page_size + page_counter) % U32) pa
      let tail := readLoop dev vm_addr_start page_size num_of_pages reply.2
        ((page_counter + 1) % U32)
      (Event.read :: Event.record r :: tail.1, tail.2)

/-- The `num_of_pages` of line 157. -/
def numOfPages (vm_addr_start vm_addr_end page_size : Nat) : Nat :=
  ((vm_addr_end + U32 - vm_addr_start) % U32) / page_size

/-- The `offset` of line 166: a `uint32_t` product converted to `off64_t`. -/
def seekOffset (vm_addr_start page_size : Nat) : Nat :=
  ((vm_addr_start / page_size) * PAGEMAP_ENTRY_SIZE) % U32

/-- The body of the outer loop, lines 141-223, for one line of the maps file.
`page_size` is the value of `getpagesize()`, which is positive; a division
by a zero page size, undefined in C, is outside the model. -/
def processLine {σ : Type} (dev : Device σ) (page_size : Nat) (line : List Char)
    (pm : σ) (page_counter : Nat) : List Event × Flow σ :=
  let p := sscanfRange line
  if p.valid_range ≠ 2 then
    ([Event.echo line], Flow.exit 201)
  else
    let num_of_pages := numOfPages p.vm_addr_start p.vm_addr_end page_size
    if num_of_pages ≤ 0 then
      ([Event.echo line], Flow.exit 202)
    else
      let offset := seekOffset p.vm_addr_start page_size
      let sk := dev.lseek64 pm offset
      let retval := toInt32 sk.1
      if retval ≠ (offset : Int) then
        ([Event.echo line, Event.seek offset], Flow.exit 203)
      else
        let body := readLoop dev p.vm_addr_start page_size num_of_pages sk.2 page_counter
        (Event.echo line :: Event.seek offset :: body.1, body.2)

/-- The loop `while (fgets(line, MAXPATHLEN, ma) != NULL)` of lines 139-224
and the `return EXIT_SUCCESS` after it. -/
def run {σ : Type} (dev : Device σ) (page_size : Nat) :
    List (List Char) → σ → Nat → List Event × Nat
  | [], _, _ => ([], 0)
  | line :: rest, pm, page_counter =>
    match processLine dev page_size line pm page_counter with
    | (evs, Flow.exit status) => (evs, status)
    | (evs, Flow.next pm1 pc1) =>
      let tail := run dev page_size rest pm1 pc1
      (evs ++ tail.1, tail.2)

/-- The whole of `main` from line 136 on: `page_counter` starts at `0`. -/
def pagemapMain {σ : Type} (dev : Device σ) (page_size : Nat)
    (ma : List (List Char)) (pm : σ) : List Event × Nat :=
  run dev page_size ma pm 0

/-- The mapping records of a trace, in order. -/
def records : List Event → List MappingRecord
  | [] => []
  | Event.record r :: es => r :: records es
  | _ :: es => records es

/-- The calls on the descriptor in a trace. -/
def tableCalls : List Event → List Event
  | [] => []
  | Event.seek o :: es => Event.seek o :: tableCalls es
  | Event.read :: es => Event.read :: tableCalls es
  | _ :: es => tableCalls es

/-! ## Descriptors for the examples, and names for stating the theorems -/

/-- A file of `size` bytes whose byte at offset `i` is `byte i`. -/
structure File where
  size : Nat
  byte : Nat → Nat

/-- A regular file as a `Device`; the state is the file position.  A seek
moves to the requested offset and returns it, a read returns the bytes from
the position on, at most eight and none past the end, and advances over
them. -/
def fileDevice (f : File) : Device Nat where
  lseek64 := fun _ offset => ((offset : Int), offset)
  read := fun pos =>
    let n := min 8 (f.size - pos)
    (⟨(n : Int), (List.range n).map (fun i => f.byte (pos + i))⟩, pos + n)

/-- A descriptor that answers reads from a script; the state is what is left
of the script, and a read after its end fails with `-1`.  Seeks succeed. -/
def scriptDevice : Device (List ReadReply) where
  lseek64 := fun s offset => ((offset : Int), s)
  read := fun s =>
    match s with
    | [] => (⟨-1, []⟩, [])
    | r :: rest => (r, rest)

/-- The file whose 8-byte little-endian entries are `entries`. -/
def tableFile (entries : List Nat) : File where
  size := 8 * entries.length
  byte := fun i => (entries.getD (i / 8) 0 / 256 ^ (i % 8)) % 256

/-- State of the descriptor after `i` reads from state `pm`. -/
def afterReads {σ : Type} (dev : Device σ) : Nat → σ → σ
  | 0, pm => pm
  | i + 1, pm => afterReads dev i (dev.read pm).2

/-- Reply to the `i`-th read (0-based) of a loop entered in state `pm`. -/
def replyAt {σ : Type} (dev : Device σ) (pm : σ) (i : Nat) : ReadReply :=
  (dev.read (afterReads dev i pm)).1

/-- The record of iteration `i` (0-based) of a loop entered in state `pm` with
the counter at `page_counter`. -/
def loopRecord {σ : Type} (dev : Device σ) (vm_addr_start page_size : Nat) (pm : σ)
    (page_counter i : Nat) : MappingRecord :=
  decode ((vm_addr_start / page_size + (page_counter + i)) % U32) (paAfterRead (replyAt dev pm i))

/-- The events of the first `k` iterations of such a loop when their reads
do not fail. -/
def loopEvents {σ : Type} (dev : Device σ) (vm_addr_start page_size : Nat) (pm : σ)
    (page_counter : Nat) : Nat → List Event
  | 0 => []
  | k + 1 => loopEvents dev vm_addr_start page_size pm page_counter k
      ++ [Event.read, Event.record (loopRecord dev vm_addr_start page_size pm page_counter k)]

/-- The number a string of hexadecimal digits writes. -/
def hexValue (ds : List Char) : Nat := (readDigits 0 false ds).1

/-- Every character of the string is a hexadecimal digit. -/
abbrev allHex (ds : List Char) : Prop := ∀ c ∈ ds, (hexDigit c).isSome = true

/-- Entry `n` of a file: the little-endian value of its bytes `8n .. 8n+7`. -/
def entryAt (f : File) (n : Nat) : Nat :=
  leValue ((List.range 8).map (fun i => f.byte (8 * n + i)))

/-! ## Bit tests -/

theorem and_two_pow_eq (e k : Nat) :
    e &&& 2 ^ k = if e.testBit k then 2 ^ k else 0 := by
  apply Nat.eq_of_testBit_eq
  intro i
  rw [Nat.testBit_and, Nat.testBit_two_pow]
  by_cases h : e.testBit k
  · rw [if_pos h, Nat.testBit_two_pow]
    by_cases hk : k = i
    · subst hk; simp [h]
    · simp [hk]
  · rw [if_neg h, Nat.zero_testBit]
    by_cases hk : k = i
    · subst hk; simp [h]
    · simp [hk]

theorem is_bit_set_ne_zero (e k : Nat) (hk : k < 64) :
    (is_bit_set e k != 0) = e.testBit k := by
  have h1 : (1 <<< k) % U64 = 2 ^ k := by
    rw [Nat.one_shiftLeft]
    exact Nat.mod_eq_of_lt (Nat.pow_lt_pow_right (by decide) hk)
  unfold is_bit_set
  rw [h1, and_two_pow_eq]
  by_cases h : e.testBit k
  · have : (2 : Nat) ^ k ≠ 0 := by positivity
    simp [h, this]
  · simp [h]

theorem raw_eq_mod (e : Nat) : e &&& 0x7FFFFFFF = e % 2 ^ 31 :=
  Nat.and_pow_two_sub_one_eq_mod e 31

/-! ## The scanner on well-formed range lines -/

theorem hexDigit_not_space {c : Char} (h : (hexDigit c).isSome = true) : isspace c = false := by
  cases hs : isspace c with
  | false => rfl
  | true =>
    exfalso
    simp only [isspace, Bool.or_eq_true, beq_iff_eq] at hs
    rcases hs with ((((h1 | h1) | h1) | h1) | h1) | h1 <;> subst h1 <;> revert h <;> decide

theorem hexDigit_ne {c t : Char} (h : (hexDigit c).isSome = true) (ht : hexDigit t = none) :
    c ≠ t := by
  intro hc
  subst hc
  rw [ht] at h
  cases h

theorem readDigits_allHex (ds : List Char) (h : allHex ds) (t : Char) (rest : List Char)
    (ht : hexDigit t = none) (acc : Nat) (seen : Bool) :
    readDigits acc seen (ds ++ t :: rest)
      = ((readDigits acc seen ds).1, (seen || !ds.isEmpty), t :: rest) := by
  induction ds generalizing acc seen with
  | nil => simp [readDigits, ht]
  | cons c ds ih =>
    have hc : (hexDigit c).isSome = true := h c (List.mem_cons_self c ds)
    have hds : allHex ds := fun x hx => h x (List.mem_cons_of_mem c hx)
    obtain ⟨d, hd⟩ := Option.isSome_iff_exists.mp hc
    have e : readDigits acc seen (c :: (ds ++ t :: rest))
        = readDigits (16 * acc + d) true (ds ++ t :: rest) := by
      simp only [readDigits, hd]
    have e2 : readDigits acc seen (c :: ds) = readDigits (16 * acc + d) true ds := by
      simp only [readDigits, hd]
    rw [List.cons_append, e, e2, ih hds]
    simp

theorem scanHex_digits (ds : List Char) (hne : ds ≠ []) (h : allHex ds) (t : Char)
    (rest : List Char) (ht : hexDigit t = none) (htx : t ≠ 'x') (htX : t ≠ 'X') :
    scanHex (ds ++ t :: rest) = Scan.ok (strtoulValue false (hexValue ds)) (t :: rest) := by
  obtain ⟨c, ds1, rfl⟩ := List.exists_cons_of_ne_nil hne
  have hc : (hexDigit c).isSome = true := h c (List.mem_cons_self c ds1)
  have hsp : isspace c = false := hexDigit_not_space hc
  have hminus : c ≠ '-' := hexDigit_ne hc (by decide)
  have hplus : c ≠ '+' := hexDigit_ne hc (by decide)
  have hbody : ∃ c1 cs, ds1 ++ t :: rest = c1 :: cs ∧ c1 ≠ 'x' ∧ c1 ≠ 'X' := by
    cases ds1 with
    | nil =>
      exact ⟨t, rest, rfl, htx, htX⟩
    | cons c1 ds2 =>
      have hc1 : (hexDigit c1).isSome = true :=
        h c1 (List.mem_cons_of_mem c (List.mem_cons_self c1 ds2))
      exact ⟨c1, ds2 ++ t :: rest, rfl, hexDigit_ne hc1 (by decide), hexDigit_ne hc1 (by decide)⟩
  obtain ⟨c1, cs, hcs, hx, hX⟩ := hbody
  have hrd := readDigits_allHex (c :: ds1) h t rest ht 0 false
  simp only [List.cons_append] at hrd
  have hsk : skipSpace (c :: (ds1 ++ t :: rest)) = c :: (ds1 ++ t :: rest) := by
    simp only [skipSpace, hsp, Bool.false_eq_true, if_false]
  have hmag : scanMagnitude false (c :: (ds1 ++ t :: rest))
      = Scan.ok (strtoulValue false (hexValue (c :: ds1))) (t :: rest) := by
    unfold scanMagnitude
    rw [hcs]
    simp only [hx, hX, or_self, and_false, if_false]
    rw [← hcs, hrd]
    simp [hexValue]
  rw [List.cons_append]
  unfold scanHex
  rw [hsk]
  simp only [hminus, hplus, if_false, hmag]

theorem strtoulValue_of_lt {v : Nat} (h : v < U32) : strtoulValue false v % U32 = v := by
  have h1 : ¬ ULONG_MAX < v := by
    have : U32 ≤ ULONG_MAX := by decide
    omega
  simp [strtoulValue, h1, Nat.mod_eq_of_lt h]

/-- A line `start-end rest` whose two numbers fit 32 bits is parsed to
them. -/
theorem sscanfRange_line (ds1 ds2 rest : List Char) (h1 : ds1 ≠ []) (h2 : ds2 ≠ [])
    (a1 : allHex ds1) (a2 : allHex ds2) (b1 : hexValue ds1 < U32) (b2 : hexValue ds2 < U32) :
    sscanfRange (ds1 ++ '-' :: (ds2 ++ ' ' :: rest)) = ⟨2, hexValue ds1, hexValue ds2⟩ := by
  unfold sscanfRange
  rw [scanHex_digits ds1 h1 a1 '-' _ (by decide) (by decide) (by decide)]
  simp only
  rw [scanHex_digits ds2 h2 a2 ' ' _ (by decide) (by decide) (by decide)]
  simp only [strtoulValue_of_lt b1, strtoulValue_of_lt b2]

/-! ## The read loop -/

theorem U32_eq : U32 = 4294967296 := by decide

theorem records_append (xs ys : List Event) : records (xs ++ ys) = records xs ++ records ys := by
  induction xs with
  | nil => rfl
  | cons x xs ih => cases x <;> simp [records, ih]

theorem loopRecord_succ {σ : Type} (dev : Device σ) (s ps : Nat) (pm : σ) (pc i : Nat) :
    loopRecord dev s ps pm pc (i + 1) = loopRecord dev s ps (dev.read pm).2 ((pc + 1) % U32) i := by
  have h : (s / ps + (pc + (i + 1))) % U32 = (s / ps + ((pc + 1) % U32 + i)) % U32 := by
    rw [U32_eq]; omega
  simp only [loopRecord, replyAt, afterReads, h]

theorem loopEvents_succ {σ : Type} (dev : Device σ) (s ps : Nat) (pm : σ) (pc k : Nat) :
    loopEvents dev s ps pm pc (k + 1)
      = Event.read :: Event.record (loopRecord dev s ps pm pc 0)
          :: loopEvents dev s ps (dev.read pm).2 ((pc + 1) % U32) k := by
  induction k with
  | zero => simp [loopEvents]
  | succ k ih =>
    rw [loopEvents, ih, loopRecord_succ]
    simp [loopEvents]

theorem records_loopEvents {σ : Type} (dev : Device σ) (s ps : Nat) (pm : σ) (pc k : Nat) :
    records (loopEvents dev s ps pm pc k) = (List.range k).map (loopRecord dev s ps pm pc) := by
  induction k with
  | zero => rfl
  | succ k ih =>
    rw [loopEvents, records_append, ih, List.range_succ, List.map_append]
    simp [records]

/-- Whatever the address variable holds, the offset handed to `lseek64` is
below `2^32`. -/
theorem seekOffset_lt (vm_addr_start page_size : Nat) :
    seekOffset vm_addr_start page_size < 2 ^ 32 :=
  Nat.mod_lt _ (by decide)

/-- Whatever the address variable holds, every page index the loop prints is
below `2^32`. -/
theorem readLoop_vpage_lt {σ : Type} (dev : Device σ) (s ps n : Nat) (pm : σ) (pc : Nat)
    (r : MappingRecord) (hr : r ∈ records (readLoop dev s ps n pm pc).1) : r.vpage < 2 ^ 32 := by
  induction n generalizing pm pc with
  | zero => simp [readLoop, records] at hr
  | succ n ih =>
    rw [readLoop] at hr
    split at hr
    · simp [records] at hr
    · simp only [records, List.mem_cons] at hr
      rcases hr with h | h
      · subst h
        exact Nat.mod_lt _ (by decide)
      · exact ih _ _ h

/-- A loop whose reads all return a non-negative count prints one record per
page and runs on. -/
theorem readLoop_ok {σ : Type} (dev : Device σ) (s ps n : Nat) (pm : σ) (pc : Nat)
    (h : ∀ i, i < n → 0 ≤ (replyAt dev pm i).bytes) :
    readLoop dev s ps n pm pc
      = (loopEvents dev s ps pm pc n,
          Flow.next (afterReads dev n pm) (if n = 0 then pc else (pc + n) % U32)) := by
  induction n generalizing pm pc with
  | zero => simp [readLoop, loopEvents, afterReads]
  | succ n ih =>
    have h0 : ¬ (dev.read pm).1.bytes < 0 := by
      have := h 0 (Nat.succ_pos n)
      simp only [replyAt, afterReads] at this
      omega
    have hrest : ∀ i, i < n → 0 ≤ (replyAt dev (dev.read pm).2 i).bytes := by
      intro i hi
      have := h (i + 1) (Nat.succ_lt_succ hi)
      simpa [replyAt, afterReads] using this
    have hmod : (if n = 0 then (pc + 1) % U32 else ((pc + 1) % U32 + n) % U32)
        = (pc + (n + 1)) % U32 := by
      rw [U32_eq]; split <;> omega
    rw [readLoop, if_neg h0]
    simp only
    rw [ih _ _ hrest, loopEvents_succ, hmod]
    simp [loopRecord, replyAt, afterReads]

/-- A loop whose read number `k` (0-based) is the first to fail prints the
`k` records before it, then calls `exit(204)`. -/
theorem readLoop_fail {σ : Type} (dev : Device σ) (s ps n : Nat) (pm : σ) (pc k : Nat)
    (hk : k < n) (h : ∀ i, i < k → 0 ≤ (replyAt dev pm i).bytes)
    (hf : (replyAt dev pm k).bytes < 0) :
    readLoop dev s ps n pm pc = (loopEvents dev s ps pm pc k ++ [Event.read], Flow.exit 204) := by
  induction n generalizing pm pc k with
  | zero => omega
  | succ n ih =>
    cases k with
    | zero =>
      have h0 : (dev.read pm).1.bytes < 0 := by simpa [replyAt, afterReads] using hf
      rw [readLoop, if_pos h0]
      simp [loopEvents]
    | succ k =>
      have h0 : ¬ (dev.read pm).1.bytes < 0 := by
        have := h 0 (Nat.succ_pos k)
        simp only [replyAt, afterReads] at this
        omega
      have hrest : ∀ i, i < k → 0 ≤ (replyAt dev (dev.read pm).2 i).bytes := by
        intro i hi
        have := h (i + 1) (Nat.succ_lt_succ hi)
        simpa [replyAt, afterReads] using this
      have hf2 : (replyAt dev (dev.read pm).2 k).bytes < 0 := by
        simpa [replyAt, afterReads] using hf
      rw [readLoop, if_neg h0]
      simp only
      rw [ih _ _ k (Nat.lt_of_succ_lt_succ hk) hrest hf2, loopEvents_succ]
      simp [loopRecord, replyAt, afterReads]

/-- The loop leaves only through `exit(204)` or by running on. -/
theorem readLoop_exit {σ : Type} (dev : Device σ) (s ps n : Nat) (pm : σ) (pc c : Nat)
    (h : (readLoop dev s ps n pm pc).2 = Flow.exit c) : c = 204 := by
  induction n generalizing pm pc with
  | zero => simp [readLoop] at h
  | succ n ih =>
    rw [readLoop] at h
    split at h
    · simp at h; exact h.symm
    · exact ih _ _ h

/-- A loop that runs on has printed exactly one record per page. -/
theorem readLoop_next_records {σ : Type} (dev : Device σ) (s ps n : Nat) (pm : σ) (pc : Nat)
    (pm1 : σ) (pc1 : Nat) (h : (readLoop dev s ps n pm pc).2 = Flow.next pm1 pc1) :
    (records (readLoop dev s ps n pm pc).1).length = n := by
  induction n generalizing pm pc with
  | zero => simp [readLoop, records]
  | succ n ih =>
    rw [readLoop] at h ⊢
    split at h
    · simp at h
    · rename_i hb
      rw [if_neg hb]
      simp only [records, List.length_cons]
      rw [ih _ _ h]

/-! ## One line and the whole run -/

theorem processLine_invalid {σ : Type} (dev : Device σ) (ps : Nat) (line : List Char) (pm : σ)
    (pc : Nat) (h : (sscanfRange line).valid_range ≠ 2) :
    processLine dev ps line pm pc = ([Event.echo line], Flow.exit 201) := by
  simp [processLine, h]

theorem processLine_no_pages {σ : Type} (dev : Device σ) (ps : Nat) (line : List Char) (pm : σ)
    (pc : Nat) (h : (sscanfRange line).valid_range = 2)
    (hn : numOfPages (sscanfRange line).vm_addr_start (sscanfRange line).vm_addr_end ps = 0) :
    processLine dev ps line pm pc = ([Event.echo line], Flow.exit 202) := by
  simp [processLine, h, hn]

theorem processLine_seek_mismatch {σ : Type} (dev : Device σ) (ps : Nat) (line : List Char)
    (pm : σ) (pc : Nat) (h : (sscanfRange line).valid_range = 2)
    (hn : 0 < numOfPages (sscanfRange line).vm_addr_start (sscanfRange line).vm_addr_end ps)
    (hs : toInt32 (dev.lseek64 pm (seekOffset (sscanfRange line).vm_addr_start ps)).1
      ≠ (seekOffset (sscanfRange line).vm_addr_start ps : Int)) :
    processLine dev ps line pm pc
      = ([Event.echo line, Event.seek (seekOffset (sscanfRange line).vm_addr_start ps)],
          Flow.exit 203) := by
  have hn2 : ¬ numOfPages (sscanfRange line).vm_addr_start (sscanfRange line).vm_addr_end ps = 0 :=
    Nat.pos_iff_ne_zero.mp hn
  simp [processLine, h, hn2, hs]

theorem processLine_loop {σ : Type} (dev : Device σ) (ps : Nat) (line : List Char)
    (pm : σ) (pc : Nat) (h : (sscanfRange line).valid_range = 2)
    (hn : 0 < numOfPages (sscanfRange line).vm_addr_start (sscanfRange line).vm_addr_end ps)
    (hs : toInt32 (dev.lseek64 pm (seekOffset (sscanfRange line).vm_addr_start ps)).1
      = (seekOffset (sscanfRange line).vm_addr_start ps : Int)) :
    processLine dev ps line pm pc
      = (Event.echo line :: Event.seek (seekOffset (sscanfRange line).vm_addr_start ps)
          :: (readLoop dev (sscanfRange line).vm_addr_start ps
                (numOfPages (sscanfRange line).vm_addr_start (sscanfRange line).vm_addr_end ps)
                (dev.lseek64 pm (seekOffset (sscanfRange line).vm_addr_start ps)).2 pc).1,
         (readLoop dev (sscanfRange line).vm_addr_start ps
                (numOfPages (sscanfRange line).vm_addr_start (sscanfRange line).vm_addr_end ps)
                (dev.lseek64 pm (seekOffset (sscanfRange line).vm_addr_start ps)).2 pc).2) := by
  have hn2 : ¬ numOfPages (sscanfRange line).vm_addr_start (sscanfRange line).vm_addr_end ps = 0 :=
    Nat.pos_iff_ne_zero.mp hn
  simp [processLine, h, hn2, hs]

theorem run_exit {σ : Type} (dev : Device σ) (ps : Nat) (line : List Char) (rest : List (List Char))
    (pm : σ) (pc : Nat) (evs : List Event) (c : Nat)
    (h : processLine dev ps line pm pc = (evs, Flow.exit c)) :
    run dev ps (line :: rest) pm pc = (evs, c) := by
  simp [run, h]

theorem run_next {σ : Type} (dev : Device σ) (ps : Nat) (line : List Char) (rest : List (List Char))
    (pm : σ) (pc : Nat) (evs : List Event) (pm1 : σ) (pc1 : Nat)
    (h : processLine dev ps line pm pc = (evs, Flow.next pm1 pc1)) :
    run dev ps (line :: rest) pm pc
      = (evs ++ (run dev ps rest pm1 pc1).1, (run dev ps rest pm1 pc1).2) := by
  simp [run, h]

theorem sscanfRange_lt (line : List Char) :
    (sscanfRange line).vm_addr_start < U32 ∧ (sscanfRange line).vm_addr_end < U32 := by
  have hpos : 0 < U32 := by decide
  unfold sscanfRange
  split
  · exact ⟨hpos, hpos⟩
  · exact ⟨hpos, hpos⟩
  · split
    · split
      · exact ⟨Nat.mod_lt _ hpos, Nat.mod_lt _ hpos⟩
      · exact ⟨Nat.mod_lt _ hpos, hpos⟩
    · exact ⟨Nat.mod_lt _ hpos, hpos⟩

theorem numOfPages_of_le {s e : Nat} (ps : Nat) (hle : s ≤ e) (he : e < U32) :
    numOfPages s e ps = (e - s) / ps := by
  unfold numOfPages
  have h : (e + U32 - s) % U32 = e - s := by
    rw [U32_eq] at he ⊢; omega
  rw [h]

/-! ## Decoding -/

/-- C4: the record printed for an entry depends on the entry alone: each of
the five flags is one bit of it (63 present, 62 swapped, 61 file or shared
anonymous, 56 exclusive, 55 soft-dirty), tested on its own, and the value
printed is the entry modulo `2^31`; the page index is passed through.  The
zero entry has no flag, bit 63 alone gives present only, bits 63 and 56 give
present and exclusive only, bits 63 and 62 are both reported, a single bit
outside 55, 56, 61, 62, 63 gives no flag, and the all-ones entry gives all
five. -/
theorem decode_reads_bits :
    (∀ v e : Nat,
      (decode v e).vpage = v ∧
      (decode v e).present = e.testBit 63 ∧
      (decode v e).swapped = e.testBit 62 ∧
      (decode v e).fileOrSharedAnon = e.testBit 61 ∧
      (decode v e).exclusive = e.testBit 56 ∧
      (decode v e).softDirty = e.testBit 55 ∧
      (decode v e).raw = e % 2 ^ 31) ∧
    decode 0 0 = ⟨0, false, false, false, false, false, 0⟩ ∧
    decode 0 (2 ^ 63) = ⟨0, true, false, false, false, false, 0⟩ ∧
    decode 0 (2 ^ 63 + 2 ^ 56) = ⟨0, true, false, false, true, false, 0⟩ ∧
    decode 0 (2 ^ 63 + 2 ^ 62) = ⟨0, true, true, false, false, false, 0⟩ ∧
    (∀ b : Nat, b < 64 → b ∉ [55, 56, 61, 62, 63] →
      decode 0 (2 ^ b) = ⟨0, false, false, false, false, false, 2 ^ b % 2 ^ 31⟩) ∧
    decode 0 (2 ^ 64 - 1) = ⟨0, true, true, true, true, true, 2 ^ 31 - 1⟩ := by
  have general : ∀ v e : Nat,
      (decode v e).vpage = v ∧
      (decode v e).present = e.testBit 63 ∧
      (decode v e).swapped = e.testBit 62 ∧
      (decode v e).fileOrSharedAnon = e.testBit 61 ∧
      (decode v e).exclusive = e.testBit 56 ∧
      (decode v e).softDirty = e.testBit 55 ∧
      (decode v e).raw = e % 2 ^ 31 := by
    intro v e
    refine ⟨rfl, ?_, ?_, ?_, ?_, ?_, ?_⟩
    · exact is_bit_set_ne_zero e 63 (by decide)
    · exact is_bit_set_ne_zero e 62 (by decide)
    · exact is_bit_set_ne_zero e 61 (by decide)
    · exact is_bit_set_ne_zero e 56 (by decide)
    · exact is_bit_set_ne_zero e 55 (by decide)
    · exact raw_eq_mod e
  refine ⟨general, by decide, by decide, by decide, by decide, ?_, by decide⟩
  intro b _ hb
  obtain ⟨h0, h1, h2, h3, h4, h5, h6⟩ := general 0 (2 ^ b)
  simp only [List.mem_cons, List.mem_singleton, List.not_mem_nil, or_false, not_or] at hb
  obtain ⟨b55, b56, b61, b62, b63⟩ := hb
  rw [Nat.testBit_two_pow] at h1 h2 h3 h4 h5
  have e1 : (decode 0 (2 ^ b)).present = false := by rw [h1]; simpa using b63
  have e2 : (decode 0 (2 ^ b)).swapped = false := by rw [h2]; simpa using b62
  have e3 : (decode 0 (2 ^ b)).fileOrSharedAnon = false := by rw [h3]; simpa using b61
  have e4 : (decode 0 (2 ^ b)).exclusive = false := by rw [h4]; simpa using b56
  have e5 : (decode 0 (2 ^ b)).softDirty = false := by rw [h5]; simpa using b55
  cases hd : decode 0 (2 ^ b) with
  | mk vp p sw fs ex sd raw =>
    rw [hd] at h0 h6 e1 e2 e3 e4 e5
    simp only at h0 h6 e1 e2 e3 e4 e5
    subst h0 h6 e1 e2 e3 e4 e5
    rfl

/-! ## Malformed lines -/

/-- C8: when `sscanf` does not convert two fields from a line, the run ends
there with status 201: from the moment the line is read the trace holds its
echo only, so no seek, no read and no record, and the lines after it are not
looked at. -/
theorem invalid_range_format_halts {σ : Type} (dev : Device σ) (ps : Nat) (line : List Char)
    (rest : List (List Char)) (pm : σ) (pc : Nat)
    (h : (sscanfRange line).valid_range ≠ 2) :
    run dev ps (line :: rest) pm pc = ([Event.echo line], 201) :=
  run_exit dev ps line rest pm pc _ _ (processLine_invalid dev ps line pm pc h)

/-- The line `not-a-range` converts no field and ends the run with 201 before
the table is touched. -/
theorem invalid_range_format_halts_witness :
    (sscanfRange "not-a-range".toList).valid_range ≠ 2 ∧
    pagemapMain scriptDevice 0x1000 ["not-a-range".toList, "1000-2000 r-xp".toList] []
      = ([Event.echo "not-a-range".toList], 201) :=
  ⟨by decide,
   invalid_range_format_halts scriptDevice 0x1000 "not-a-range".toList
     ["1000-2000 r-xp".toList] [] 0 (by decide)⟩

/-! ## Page count -/

/-- On the values the variables hold after the parse, the count is the
intended one: for a line that leaves `vm_addr_start < vm_addr_end` spanning at
least one page, when the line ends neither in `exit(203)` nor in `exit(204)`,
the page count is their difference over the page size, the loop prints
exactly that many records, and the run goes on to the next line. -/
theorem page_count_records {σ : Type} (dev : Device σ) (ps : Nat) (line : List Char)
    (pm : σ) (pc : Nat)
    (hv : (sscanfRange line).valid_range = 2)
    (hlt : (sscanfRange line).vm_addr_start < (sscanfRange line).vm_addr_end)
    (hps : 0 < ps)
    (hcount : 0 < ((sscanfRange line).vm_addr_end - (sscanfRange line).vm_addr_start) / ps)
    (h203 : (processLine dev ps line pm pc).2 ≠ Flow.exit 203)
    (h204 : (processLine dev ps line pm pc).2 ≠ Flow.exit 204) :
    numOfPages (sscanfRange line).vm_addr_start (sscanfRange line).vm_addr_end ps
      = ((sscanfRange line).vm_addr_end - (sscanfRange line).vm_addr_start) / ps ∧
    (records (processLine dev ps line pm pc).1).length
      = ((sscanfRange line).vm_addr_end - (sscanfRange line).vm_addr_start) / ps ∧
    ∃ pm1 pc1, (processLine dev ps line pm pc).2 = Flow.next pm1 pc1 := by
  have _hps := hps
  have hn := numOfPages_of_le ps (Nat.le_of_lt hlt) (sscanfRange_lt line).2
  have hpos : 0 < numOfPages (sscanfRange line).vm_addr_start (sscanfRange line).vm_addr_end ps := by
    rw [hn]; exact hcount
  by_cases hs : toInt32 (dev.lseek64 pm (seekOffset (sscanfRange line).vm_addr_start ps)).1
      = (seekOffset (sscanfRange line).vm_addr_start ps : Int)
  · have hp := processLine_loop dev ps line pm pc hv hpos hs
    rw [hp] at h204 ⊢
    simp only at h204 ⊢
    cases hfl : (readLoop dev (sscanfRange line).vm_addr_start ps
        (numOfPages (sscanfRange line).vm_addr_start (sscanfRange line).vm_addr_end ps)
        (dev.lseek64 pm (seekOffset (sscanfRange line).vm_addr_start ps)).2 pc).2 with
    | exit c =>
      have hc := readLoop_exit _ _ _ _ _ _ _ hfl
      subst hc
      exact absurd hfl h204
    | next pm1 pc1 =>
      refine ⟨hn, ?_, pm1, pc1, rfl⟩
      have := readLoop_next_records _ _ _ _ _ _ _ _ hfl
      simp only [records]
      rw [this, hn]
  · have hp := processLine_seek_mismatch dev ps line pm pc hv hpos hs
    rw [hp] at h203
    exact absurd rfl h203

/-- In the modelled layout the line `1000-3000 r-xp ...` with 4096-byte pages
on a three-entry table gives two pages and two records. -/
theorem page_count_records_witness :
    numOfPages 0x1000 0x3000 0x1000 = 2 ∧
    (records (processLine (fileDevice (tableFile [0, 0x8000000000000001, 0x4000000000000002]))
      0x1000 "1000-3000 r-xp ...".toList 0 0).1).length = 2 ∧
    ∃ pm1 pc1, (processLine (fileDevice (tableFile [0, 0x8000000000000001, 0x4000000000000002]))
      0x1000 "1000-3000 r-xp ...".toList 0 0).2 = Flow.next pm1 pc1 :=
  page_count_records (fileDevice (tableFile [0, 0x8000000000000001, 0x4000000000000002]))
    0x1000 "1000-3000 r-xp ...".toList 0 0 (by decide) (by decide) (by decide) (by decide)
    (by decide) (by decide)

/-- The loop prints at most one record per page. -/
theorem readLoop_records_le {σ : Type} (dev : Device σ) (s ps n : Nat) (pm : σ) (pc : Nat) :
    (records (readLoop dev s ps n pm pc).1).length ≤ n := by
  induction n generalizing pm pc with
  | zero => simp [readLoop, records]
  | succ n ih =>
    rw [readLoop]
    split
    · simp [records]
    · simp only [records, List.length_cons]
      exact Nat.succ_le_succ (ih _ _)

/-- Whatever the address variables hold, a 4096-byte page size gives a count
below `2^20`. -/
theorem numOfPages_lt (s e : Nat) : numOfPages s e 0x1000 < 0x100000 := by
  unfold numOfPages
  rw [U32_eq]
  omega

/-- C2: the line `7f0000000000-7f0100001000` has `start < end` and spans
`0x100001` pages of 4096 bytes.  With the seek and every read succeeding, the
program counts one page and prints one record.  Whatever the 32-bit variables
hold after the parse, the loop prints fewer than `0x100001` records for the
range. -/
theorem page_count_truncated :
    hexValue "7f0000000000".toList < hexValue "7f0100001000".toList ∧
    (hexValue "7f0100001000".toList - hexValue "7f0000000000".toList) / 0x1000 = 0x100001 ∧
    pagemapMain (fileDevice (tableFile [0x8000000000000001, 0x4000000000000002])) 0x1000
        ["7f0000000000-7f0100001000 rw-p ...".toList] 0
      = ([Event.echo "7f0000000000-7f0100001000 rw-p ...".toList, Event.seek 0, Event.read,
          Event.record ⟨0, true, false, false, false, false, 1⟩], 0) ∧
    (∀ (σ : Type) (dev : Device σ) (s e : Nat) (pm : σ) (pc : Nat),
      (records (readLoop dev s 0x1000 (numOfPages s e 0x1000) pm pc).1).length < 0x100001) := by
  refine ⟨by decide, by decide, by decide, ?_⟩
  intro σ dev s e pm pc
  have h1 := readLoop_records_le dev s 0x1000 (numOfPages s e 0x1000) pm pc
  have h2 := numOfPages_lt s e
  omega

/-! ## Page indices across ranges -/

/-- C3: two one-page ranges, `1000-2000` then `5000-6000`, with 4096-byte
pages: the record of the second range is printed with page index 6, not
`0x5000 / 0x1000 + 0 = 5`, because the static `page_counter` still holds the
1 it reached in the first range. -/
theorem page_counter_carries_over :
    (records (pagemapMain (fileDevice (tableFile [0, 1, 2, 3, 4, 5, 6, 7])) 0x1000
      ["1000-2000 r-xp\n".toList, "5000-6000 rw-p\n".toList] 0).1).map MappingRecord.vpage
      = [1, 6] ∧
    (sscanfRange "5000-6000 rw-p\n".toList).vm_addr_start / 0x1000 + 0 = 5 := by
  decide

/-! ## Inverted ranges -/

/-- A range that `sscanf` converts to `start <= end` with less than one page
between them ends the run with status 202 after its echo: no seek, no read, no
record. -/
theorem narrow_range_halts {σ : Type} (dev : Device σ) (ps : Nat) (line : List Char)
    (rest : List (List Char)) (pm : σ) (pc : Nat)
    (hv : (sscanfRange line).valid_range = 2)
    (hle : (sscanfRange line).vm_addr_start ≤ (sscanfRange line).vm_addr_end)
    (hnarrow : (sscanfRange line).vm_addr_end - (sscanfRange line).vm_addr_start < ps) :
    run dev ps (line :: rest) pm pc = ([Event.echo line], 202) := by
  apply run_exit
  apply processLine_no_pages dev ps line pm pc hv
  rw [numOfPages_of_le ps hle (sscanfRange_lt line).2]
  exact Nat.div_eq_of_lt hnarrow

/-- C7: the inverted range `3000-1000` with 4096-byte pages is not refused
with status 202: the unsigned difference gives `0xFFFFE` pages, so the program
seeks to offset 24 and enters the read loop, whatever the descriptor does. -/
theorem inverted_range_not_rejected {σ : Type} (dev : Device σ) (pm : σ) (pc : Nat) :
    numOfPages (sscanfRange "3000-1000 r-xp\n".toList).vm_addr_start
      (sscanfRange "3000-1000 r-xp\n".toList).vm_addr_end 0x1000 = 0xFFFFE ∧
    (processLine dev 0x1000 "3000-1000 r-xp\n".toList pm pc).2 ≠ Flow.exit 202 ∧
    (processLine dev 0x1000 "3000-1000 r-xp\n".toList pm pc).1.take 2
      = [Event.echo "3000-1000 r-xp\n".toList, Event.seek 24] := by
  have hv : (sscanfRange "3000-1000 r-xp\n".toList).valid_range = 2 := by decide
  have hn : numOfPages (sscanfRange "3000-1000 r-xp\n".toList).vm_addr_start
      (sscanfRange "3000-1000 r-xp\n".toList).vm_addr_end 0x1000 = 0xFFFFE := by decide
  have ho : seekOffset (sscanfRange "3000-1000 r-xp\n".toList).vm_addr_start 0x1000 = 24 := by
    decide
  have hpos : 0 < numOfPages (sscanfRange "3000-1000 r-xp\n".toList).vm_addr_start
      (sscanfRange "3000-1000 r-xp\n".toList).vm_addr_end 0x1000 := by rw [hn]; decide
  refine ⟨hn, ?_, ?_⟩
  · by_cases hs : toInt32 (dev.lseek64 pm (seekOffset
        (sscanfRange "3000-1000 r-xp\n".toList).vm_addr_start 0x1000)).1
        = (seekOffset (sscanfRange "3000-1000 r-xp\n".toList).vm_addr_start 0x1000 : Int)
    · rw [processLine_loop dev _ _ pm pc hv hpos hs]
      intro h
      have := readLoop_exit _ _ _ _ _ _ _ h
      omega
    · rw [processLine_seek_mismatch dev _ _ pm pc hv hpos hs]
      simp
  · by_cases hs : toInt32 (dev.lseek64 pm (seekOffset
        (sscanfRange "3000-1000 r-xp\n".toList).vm_addr_start 0x1000)).1
        = (seekOffset (sscanfRange "3000-1000 r-xp\n".toList).vm_addr_start 0x1000 : Int)
    · rw [processLine_loop dev _ _ pm pc hv hpos hs, ho]
      rfl
    · rw [processLine_seek_mismatch dev _ _ pm pc hv hpos hs, ho]
      rfl

/-! ## Seek results -/

theorem processLine_read_fail {σ : Type} (dev : Device σ) (ps : Nat) (line : List Char)
    (pm : σ) (pc k : Nat)
    (hv : (sscanfRange line).valid_range = 2)
    (hk : k < numOfPages (sscanfRange line).vm_addr_start (sscanfRange line).vm_addr_end ps)
    (hs : toInt32 (dev.lseek64 pm (seekOffset (sscanfRange line).vm_addr_start ps)).1
      = (seekOffset (sscanfRange line).vm_addr_start ps : Int))
    (hok : ∀ i, i < k → 0 ≤ (replyAt dev
      (dev.lseek64 pm (seekOffset (sscanfRange line).vm_addr_start ps)).2 i).bytes)
    (hf : (replyAt dev
      (dev.lseek64 pm (seekOffset (sscanfRange line).vm_addr_start ps)).2 k).bytes < 0) :
    processLine dev ps line pm pc
      = (Event.echo line :: Event.seek (seekOffset (sscanfRange line).vm_addr_start ps)
          :: (loopEvents dev (sscanfRange line).vm_addr_start ps
                (dev.lseek64 pm (seekOffset (sscanfRange line).vm_addr_start ps)).2 pc k
              ++ [Event.read]),
         Flow.exit 204) := by
  rw [processLine_loop dev ps line pm pc hv (Nat.lt_of_le_of_lt (Nat.zero_le k) hk) hs,
    readLoop_fail dev _ ps _ _ pc k hk hok hf]

/-- C6 as amended: when read number `k` (0-based) of a range is the first to
return a negative count, the run ends with status 204 and its trace stops at
that read: after the echo and the seek come the `k` read and record pairs of
the pages before, then the failed read, and no record for its page or a later
one. -/
theorem read_error_halts {σ : Type} (dev : Device σ) (ps : Nat) (line : List Char)
    (rest : List (List Char)) (pm : σ) (pc k : Nat)
    (hv : (sscanfRange line).valid_range = 2)
    (hk : k < numOfPages (sscanfRange line).vm_addr_start (sscanfRange line).vm_addr_end ps)
    (hs : toInt32 (dev.lseek64 pm (seekOffset (sscanfRange line).vm_addr_start ps)).1
      = (seekOffset (sscanfRange line).vm_addr_start ps : Int))
    (hok : ∀ i, i < k → 0 ≤ (replyAt dev
      (dev.lseek64 pm (seekOffset (sscanfRange line).vm_addr_start ps)).2 i).bytes)
    (hf : (replyAt dev
      (dev.lseek64 pm (seekOffset (sscanfRange line).vm_addr_start ps)).2 k).bytes < 0) :
    run dev ps (line :: rest) pm pc
      = (Event.echo line :: Event.seek (seekOffset (sscanfRange line).vm_addr_start ps)
          :: (loopEvents dev (sscanfRange line).vm_addr_start ps
                (dev.lseek64 pm (seekOffset (sscanfRange line).vm_addr_start ps)).2 pc k
              ++ [Event.read]),
         204) :=
  run_exit dev ps line rest pm pc _ _ (processLine_read_fail dev ps line pm pc k hv hk hs hok hf)

/-- The first read of the line `1000-3000 r-xp` fails on an empty script: the
run ends with 204 after the echo, the seek and that read. -/
theorem read_error_halts_witness :
    (replyAt scriptDevice [] 0).bytes < 0 ∧
    pagemapMain scriptDevice 0x1000 ["1000-3000 r-xp\n".toList, "5000-6000 rw-p\n".toList] []
      = ([Event.echo "1000-3000 r-xp\n".toList, Event.seek 8, Event.read], 204) :=
  ⟨by decide,
   read_error_halts scriptDevice 0x1000 "1000-3000 r-xp\n".toList ["5000-6000 rw-p\n".toList]
     [] 0 0 (by decide) (by decide) (by decide) (fun i hi => absurd hi (Nat.not_lt_zero i))
     (by decide)⟩

/-- C6 as stated fails: on an empty table the read of the line `1000-2000`
returns 0 bytes, fewer than 8, and the run does not stop with 204: it prints a
record for the page from the untouched `pa = 0` and ends with status 0. -/
theorem short_read_not_fatal :
    (replyAt (fileDevice ⟨0, fun _ => 0⟩) 8 0).bytes = 0 ∧
    pagemapMain (fileDevice ⟨0, fun _ => 0⟩) 0x1000 ["1000-2000 r-xp\n".toList] 0
      = ([Event.echo "1000-2000 r-xp\n".toList, Event.seek 8, Event.read,
          Event.record ⟨1, false, false, false, false, false, 0⟩], 0) := by
  decide

/-! ## Records printed before an error -/

/-- C10 as amended: when read number `k` (0-based) of a range is the first to
fail, the run ends with status 204 and the records of the trace are exactly the
`k` records of the pages read before, in order: records are printed as they
are decoded, and those of an interrupted range stay in the output. -/
theorem records_before_read_error {σ : Type} (dev : Device σ) (ps : Nat) (line : List Char)
    (rest : List (List Char)) (pm : σ) (pc k : Nat)
    (hv : (sscanfRange line).valid_range = 2)
    (hk : k < numOfPages (sscanfRange line).vm_addr_start (sscanfRange line).vm_addr_end ps)
    (hs : toInt32 (dev.lseek64 pm (seekOffset (sscanfRange line).vm_addr_start ps)).1
      = (seekOffset (sscanfRange line).vm_addr_start ps : Int))
    (hok : ∀ i, i < k → 0 ≤ (replyAt dev
      (dev.lseek64 pm (seekOffset (sscanfRange line).vm_addr_start ps)).2 i).bytes)
    (hf : (replyAt dev
      (dev.lseek64 pm (seekOffset (sscanfRange line).vm_addr_start ps)).2 k).bytes < 0) :
    (run dev ps (line :: rest) pm pc).2 = 204 ∧
    records (run dev ps (line :: rest) pm pc).1
      = (List.range k).map (loopRecord dev (sscanfRange line).vm_addr_start ps
          (dev.lseek64 pm (seekOffset (sscanfRange line).vm_addr_start ps)).2 pc) := by
  rw [run_exit dev ps line rest pm pc _ _
    (processLine_read_fail dev ps line pm pc k hv hk hs hok hf)]
  refine ⟨rfl, ?_⟩
  simp only [records]
  rw [records_append, records_loopEvents]
  simp [records]

/-- The line `1000-3000 r-xp` on a script of one good entry: the second read
fails, the status is 204 and the record of page 1 is in the output. -/
theorem records_before_read_error_witness :
    (pagemapMain scriptDevice 0x1000 ["1000-3000 r-xp\n".toList]
      [⟨8, [1, 0, 0, 0, 0, 0, 0, 0x80]⟩]).2 = 204 ∧
    records (pagemapMain scriptDevice 0x1000 ["1000-3000 r-xp\n".toList]
      [⟨8, [1, 0, 0, 0, 0, 0, 0, 0x80]⟩]).1
      = [⟨1, true, false, false, false, false, 1⟩] :=
  records_before_read_error scriptDevice 0x1000 "1000-3000 r-xp\n".toList []
    [⟨8, [1, 0, 0, 0, 0, 0, 0, 0x80]⟩] 0 1 (by decide) (by decide) (by decide)
    (by decide) (by decide)

/-- C10 as stated fails: the second read of the two-page range `1000-3000`
fails after one good read, and the trace of the run, which ends with status
204, holds the record of page 1 of that range. -/
theorem interrupted_range_reported :
    pagemapMain scriptDevice 0x1000 ["1000-3000 r-xp\n".toList]
      [⟨8, [1, 0, 0, 0, 0, 0, 0, 0x80]⟩]
      = ([Event.echo "1000-3000 r-xp\n".toList, Event.seek 8, Event.read,
          Event.record ⟨1, true, false, false, false, false, 1⟩, Event.read], 204) ∧
    records (pagemapMain scriptDevice 0x1000 ["1000-3000 r-xp\n".toList]
      [⟨8, [1, 0, 0, 0, 0, 0, 0, 0x80]⟩]).1 ≠ [] := by
  decide

/-! ## The seek offset -/

/-- Below `2^32` the offset is the intended one: for a line `start-end rest`
with `start < end < 2^32` spanning at least one page, the program seeks to
`(start / pageSize) * 8` whenever that product is below `2^32`; in particular,
if `start` is `pageSize * k`, it seeks to `k * 8`. -/
theorem seek_offset_of_range {σ : Type} (dev : Device σ) (ps : Nat) (ds1 ds2 rest : List Char)
    (pm : σ) (pc : Nat)
    (h1 : ds1 ≠ []) (h2 : ds2 ≠ []) (a1 : allHex ds1) (a2 : allHex ds2)
    (hlt : hexValue ds1 < hexValue ds2) (he : hexValue ds2 < U32)
    (hcount : 0 < (hexValue ds2 - hexValue ds1) / ps)
    (hoff : hexValue ds1 / ps * 8 < U32) :
    (processLine dev ps (ds1 ++ '-' :: (ds2 ++ ' ' :: rest)) pm pc).1.take 2
      = [Event.echo (ds1 ++ '-' :: (ds2 ++ ' ' :: rest)), Event.seek (hexValue ds1 / ps * 8)] ∧
    ∀ k : Nat, hexValue ds1 = ps * k →
      (processLine dev ps (ds1 ++ '-' :: (ds2 ++ ' ' :: rest)) pm pc).1.take 2
        = [Event.echo (ds1 ++ '-' :: (ds2 ++ ' ' :: rest)), Event.seek (k * 8)] := by
  have hp := sscanfRange_line ds1 ds2 rest h1 h2 a1 a2 (Nat.lt_trans hlt he) he
  have hv : (sscanfRange (ds1 ++ '-' :: (ds2 ++ ' ' :: rest))).valid_range = 2 := by rw [hp]
  have hn : 0 < numOfPages (sscanfRange (ds1 ++ '-' :: (ds2 ++ ' ' :: rest))).vm_addr_start
      (sscanfRange (ds1 ++ '-' :: (ds2 ++ ' ' :: rest))).vm_addr_end ps := by
    rw [hp]
    simp only
    rw [numOfPages_of_le ps (Nat.le_of_lt hlt) he]
    exact hcount
  have ho : seekOffset (sscanfRange (ds1 ++ '-' :: (ds2 ++ ' ' :: rest))).vm_addr_start ps
      = hexValue ds1 / ps * 8 := by
    rw [hp]
    simp only [seekOffset, PAGEMAP_ENTRY_SIZE]
    exact Nat.mod_eq_of_lt hoff
  have first : (processLine dev ps (ds1 ++ '-' :: (ds2 ++ ' ' :: rest)) pm pc).1.take 2
      = [Event.echo (ds1 ++ '-' :: (ds2 ++ ' ' :: rest)),
          Event.seek (hexValue ds1 / ps * 8)] := by
    by_cases hs : toInt32 (dev.lseek64 pm (seekOffset
        (sscanfRange (ds1 ++ '-' :: (ds2 ++ ' ' :: rest))).vm_addr_start ps)).1
        = (seekOffset (sscanfRange (ds1 ++ '-' :: (ds2 ++ ' ' :: rest))).vm_addr_start ps : Int)
    · rw [processLine_loop dev ps _ pm pc hv hn hs, ho]
      rfl
    · rw [processLine_seek_mismatch dev ps _ pm pc hv hn hs, ho]
      rfl
  refine ⟨first, ?_⟩
  intro k hk
  have hps : 0 < ps := by
    rcases Nat.eq_zero_or_pos ps with h0 | h0
    · subst h0; simp at hcount
    · exact h0
  rw [first, hk, Nat.mul_div_cancel_left k hps]

/-- The line `1000-3000 r-xp ...` with 4096-byte pages: `0x1000` is
`0x1000 * 1` and the seek goes to offset 8. -/
theorem seek_offset_of_range_witness :
    (processLine (fileDevice (tableFile [0, 1, 2])) 0x1000
        ("1000".toList ++ '-' :: ("3000".toList ++ ' ' :: "r-xp ...".toList)) 0 0).1.take 2
      = [Event.echo "1000-3000 r-xp ...".toList, Event.seek 8] :=
  (seek_offset_of_range (fileDevice (tableFile [0, 1, 2])) 0x1000 "1000".toList "3000".toList
    "r-xp ...".toList 0 0 (by decide) (by decide) (by decide) (by decide) (by decide)
    (by decide) (by decide) (by decide)).2 1 (by decide)

/-- C5: the start `0x7f0000001000` is `0x1000 * 0x7f0000001`, so the seek
should go to byte offset `0x7f0000001 * 8`; the 32-bit address variable gives a
seek to offset 8, and no seek to `0x7f0000001 * 8` is made. -/
theorem seek_offset_truncated :
    hexValue "7f0000001000".toList = 0x1000 * 0x7f0000001 ∧
    tableCalls (pagemapMain
      (fileDevice (tableFile [0, 0x8000000000000001, 0x4000000000000002])) 0x1000
      ["7f0000001000-7f0000003000 r-xp ...".toList] 0).1
      = [Event.seek 8, Event.read, Event.read] ∧
    Event.seek (0x7f0000001 * 8) ∉ (pagemapMain
      (fileDevice (tableFile [0, 0x8000000000000001, 0x4000000000000002])) 0x1000
      ["7f0000001000-7f0000003000 r-xp ...".toList] 0).1 := by
  decide

/-! ## One range on a regular file -/

theorem afterReads_file (f : File) (i pos : Nat) (h : pos + 8 * i ≤ f.size) :
    afterReads (fileDevice f) i pos = pos + 8 * i := by
  induction i generalizing pos with
  | zero => rfl
  | succ i ih =>
    have hmin : min 8 (f.size - pos) = 8 := by omega
    have hstep : ((fileDevice f).read pos).2 = pos + 8 := by
      simp only [fileDevice, hmin]
    rw [afterReads, hstep, ih (pos + 8) (by omega)]
    omega

theorem replyAt_file (f : File) (i pos : Nat) (h : pos + 8 * (i + 1) ≤ f.size) :
    replyAt (fileDevice f) pos i
      = ⟨8, (List.range 8).map (fun j => f.byte (pos + 8 * i + j))⟩ := by
  have hmin : min 8 (f.size - (pos + 8 * i)) = 8 := by omega
  rw [replyAt, afterReads_file f i pos (by omega)]
  simp only [fileDevice, hmin]
  rfl

theorem file_read_nonneg (f : File) (pos i : Nat) : 0 ≤ (replyAt (fileDevice f) pos i).bytes := by
  simp only [replyAt, fileDevice]
  exact Int.natCast_nonneg _

theorem paAfterRead_file (f : File) (i m : Nat) (h : 8 * m + 8 * (i + 1) ≤ f.size) :
    paAfterRead (replyAt (fileDevice f) (8 * m) i) = entryAt f (m + i) := by
  rw [replyAt_file f i (8 * m) h]
  simp only [paAfterRead, entryAt]
  have : 8 * m + 8 * i = 8 * (m + i) := by ring
  rw [this]
  rfl

theorem toInt32_of_small (n : Nat) (h : n < 2 ^ 31) : toInt32 (n : Int) = (n : Int) := by
  unfold toInt32
  have h1 : (n : Int) % 2 ^ 32 = (n : Int) := by
    apply Int.emod_eq_of_lt (Int.natCast_nonneg n)
    have : (n : Int) < (2 ^ 31 : Nat) := by exact_mod_cast h
    have : ((2 ^ 31 : Nat) : Int) < 2 ^ 32 := by norm_num
    omega
  rw [h1]
  have : (n : Int) < 2 ^ 31 := by exact_mod_cast h
  rw [if_pos this]

theorem div_add_div_le (a b p : Nat) : a / p + b / p ≤ (a + b) / p := by
  rcases Nat.eq_zero_or_pos p with h0 | h0
  · subst h0; simp
  · rw [Nat.le_div_iff_mul_le h0, Nat.add_mul]
    exact Nat.add_le_add (Nat.div_mul_le_self a p) (Nat.div_mul_le_self b p)

/-- Below `2^32` a single range is reported as intended.  A run over the
single line `start-end rest` with `start <= end < 2^32`, a positive page size
and a seek offset `(start / pageSize) * 8` below `2^31`, on a regular file long
enough for every read to return 8 bytes: its records are exactly those of the
`(end - start) / pageSize` pages, record `i` carrying page index
`start / pageSize + i` and the flags and masked value of table entry
`start / pageSize + i`.  The status is 0, or 202 when the range holds no
page. -/
theorem single_range_end_to_end (f : File) (ps : Nat) (ds1 ds2 rest : List Char)
    (h1 : ds1 ≠ []) (h2 : ds2 ≠ []) (a1 : allHex ds1) (a2 : allHex ds2)
    (hle : hexValue ds1 ≤ hexValue ds2) (he : hexValue ds2 < U32)
    (hps : 0 < ps)
    (hoff : hexValue ds1 / ps * 8 < 2 ^ 31)
    (hsize : 8 * (hexValue ds1 / ps + (hexValue ds2 - hexValue ds1) / ps) ≤ f.size) :
    records (pagemapMain (fileDevice f) ps [ds1 ++ '-' :: (ds2 ++ ' ' :: rest)] 0).1
      = (List.range ((hexValue ds2 - hexValue ds1) / ps)).map
          (fun i => decode (hexValue ds1 / ps + i) (entryAt f (hexValue ds1 / ps + i))) ∧
    (pagemapMain (fileDevice f) ps [ds1 ++ '-' :: (ds2 ++ ' ' :: rest)] 0).2
      = if (hexValue ds2 - hexValue ds1) / ps = 0 then 202 else 0 := by
  have _hps := hps
  have hp := sscanfRange_line ds1 ds2 rest h1 h2 a1 a2 (Nat.lt_of_le_of_lt hle he) he
  have hv : (sscanfRange (ds1 ++ '-' :: (ds2 ++ ' ' :: rest))).valid_range = 2 := by rw [hp]
  have hs' : (sscanfRange (ds1 ++ '-' :: (ds2 ++ ' ' :: rest))).vm_addr_start = hexValue ds1 := by
    rw [hp]
  have he' : (sscanfRange (ds1 ++ '-' :: (ds2 ++ ' ' :: rest))).vm_addr_end = hexValue ds2 := by
    rw [hp]
  have hnum : numOfPages (sscanfRange (ds1 ++ '-' :: (ds2 ++ ' ' :: rest))).vm_addr_start
      (sscanfRange (ds1 ++ '-' :: (ds2 ++ ' ' :: rest))).vm_addr_end ps
      = (hexValue ds2 - hexValue ds1) / ps := by
    rw [hs', he', numOfPages_of_le ps hle he]
  have ho0 : seekOffset (hexValue ds1) ps = 8 * (hexValue ds1 / ps) := by
    simp only [seekOffset, PAGEMAP_ENTRY_SIZE]
    rw [Nat.mod_eq_of_lt (by rw [U32_eq]; omega)]
    omega
  have ho : seekOffset (sscanfRange (ds1 ++ '-' :: (ds2 ++ ' ' :: rest))).vm_addr_start ps
      = 8 * (hexValue ds1 / ps) := by
    rw [hs', ho0]
  unfold pagemapMain
  rcases Nat.eq_zero_or_pos ((hexValue ds2 - hexValue ds1) / ps) with hz | hpos
  · rw [run_exit _ _ _ _ _ _ _ _
      (processLine_no_pages (fileDevice f) ps _ 0 0 hv (by rw [hnum]; exact hz))]
    simp [hz, records]
  · have hseek : toInt32 ((fileDevice f).lseek64 0 (seekOffset
          (sscanfRange (ds1 ++ '-' :: (ds2 ++ ' ' :: rest))).vm_addr_start ps)).1
        = (seekOffset (sscanfRange (ds1 ++ '-' :: (ds2 ++ ' ' :: rest))).vm_addr_start ps
            : Int) := by
      rw [ho]
      exact toInt32_of_small _ (by omega)
    have hproc := processLine_loop (fileDevice f) ps _ 0 0 hv (by rw [hnum]; exact hpos) hseek
    rw [readLoop_ok _ _ _ _ _ _ (fun i _ => file_read_nonneg f _ i)] at hproc
    simp only at hproc
    rw [run_next _ _ _ _ _ _ _ _ _ hproc]
    have hnil : ∀ (pm1 pc1 : Nat), run (fileDevice f) ps [] pm1 pc1 = ([], 0) := fun _ _ => rfl
    rw [hnil]
    simp only [List.append_nil]
    have hrec : ∀ (l : List Char) (o : Nat) (es : List Event),
        records (Event.echo l :: Event.seek o :: es) = records es := fun _ _ _ => rfl
    rw [hrec, records_loopEvents, hnum, hs', ho0]
    refine ⟨?_, by rw [if_neg (Nat.pos_iff_ne_zero.mp hpos)]⟩
    apply List.map_congr_left
    intro i hi
    have hi' : i < (hexValue ds2 - hexValue ds1) / ps := List.mem_range.mp hi
    have hbound : hexValue ds1 / ps + (hexValue ds2 - hexValue ds1) / ps ≤ hexValue ds2 := by
      have h3 := div_add_div_le (hexValue ds1) (hexValue ds2 - hexValue ds1) ps
      have h4 : hexValue ds1 + (hexValue ds2 - hexValue ds1) = hexValue ds2 := by omega
      rw [h4] at h3
      exact Nat.le_trans h3 (Nat.div_le_self _ _)
    have hidx : (hexValue ds1 / ps + (0 + i)) % U32 = hexValue ds1 / ps + i := by
      rw [Nat.zero_add]
      apply Nat.mod_eq_of_lt
      omega
    have hfd : ((fileDevice f).lseek64 0 (8 * (hexValue ds1 / ps))).2
        = 8 * (hexValue ds1 / ps) := rfl
    simp only [loopRecord, hidx, hfd]
    rw [paAfterRead_file f i (hexValue ds1 / ps) (by omega)]

/-- The run of the specification's example: the line `1000-3000 r-xp ...`,
4096-byte pages, entry 1 `0x8000000000000001` and entry 2
`0x4000000000000002`.  Two records: page 1 present with value 1, page 2
swapped with value 2. -/
theorem single_range_end_to_end_witness :
    records (pagemapMain
      (fileDevice (tableFile [0, 0x8000000000000001, 0x4000000000000002])) 0x1000
      ["1000-3000 r-xp ...".toList] 0).1
      = [⟨1, true, false, false, false, false, 1⟩, ⟨2, false, true, false, false, false, 2⟩] ∧
    (pagemapMain
      (fileDevice (tableFile [0, 0x8000000000000001, 0x4000000000000002])) 0x1000
      ["1000-3000 r-xp ...".toList] 0).2 = 0 :=
  single_range_end_to_end (tableFile [0, 0x8000000000000001, 0x4000000000000002]) 0x1000
    "1000".toList "3000".toList "r-xp ...".toList (by decide) (by decide) (by decide)
    (by decide) (by decide) (by decide) (by decide) (by decide) (by decide)

/-- C1: on the single line `7f0000001000-7f0000003000 r-xp ...` with 4096-byte
pages, where every read returns 8 bytes, the records should carry page
indices `0x7f0000001` and `0x7f0000002` and the entries of those pages; the
32-bit address variables give the records of pages 1 and 2, decoded from table
entries 1 and 2. -/
theorem single_range_high_address :
    hexValue "7f0000001000".toList / 0x1000 = 0x7f0000001 ∧
    (replyAt (fileDevice (tableFile [0, 0x8000000000000001, 0x4000000000000002])) 8 0).bytes = 8 ∧
    (replyAt (fileDevice (tableFile [0, 0x8000000000000001, 0x4000000000000002])) 8 1).bytes = 8 ∧
    pagemapMain (fileDevice (tableFile [0, 0x8000000000000001, 0x4000000000000002])) 0x1000
      ["7f0000001000-7f0000003000 r-xp ...".toList] 0
      = ([Event.echo "7f0000001000-7f0000003000 r-xp ...".toList, Event.seek 8,
          Event.read, Event.record ⟨1, true, false, false, false, false, 1⟩,
          Event.read, Event.record ⟨2, false, true, false, false, false, 2⟩], 0) := by
  decide

end Pagemap
